import Mathlib

/-!
Verification development for the pyClarion q-learning example and the
NumDict / construct-graph core it exercises.

The repository source under scrutiny is the example script
`examples/q_learning.py`.  The pyClarion library primitives it calls
(NumDict algebra, Stimulus, Repeater, ActionSelector, ReinforcementMap)
are not part of the source tree, so they are modelled from the design
spec; `ABTask.reinforcements` is translated directly from the source.

Numeric values are modelled as rationals: the spec describes NumDict
values as real numbers, and the claims under study are exact-arithmetic
identities.
-/

namespace nd

/-- Modelled from the spec: a NumDict is a sparse mapping from feature
keys to numbers with a declared default for keys not explicitly
present.  `keys` is the explicit key set, `val` gives the stored value
on explicit keys, `default` is the declared default. -/
structure NumDict (α : Type) where
  keys : Finset α
  val : α → ℚ
  default : ℚ

variable {α β : Type}

/-- Modelled from the spec: `D.get k` reads the value at `k`,
substituting the default when `k` is not an explicit key. -/
def NumDict.get [DecidableEq α] (d : NumDict α) (k : α) : ℚ :=
  if k ∈ d.keys then d.val k else d.default

/-- Modelled from the spec: elementwise arithmetic between two NumDicts.
The result's explicit key set is the union of the operands' explicit
keys, each key's value is `op (A.get k) (B.get k)`, and the result's
default is `op dA dB`. -/
def NumDict.binop [DecidableEq α] (f : ℚ → ℚ → ℚ) (A B : NumDict α) : NumDict α :=
  ⟨A.keys ∪ B.keys, fun k => f (A.get k) (B.get k), f A.default B.default⟩

instance [DecidableEq α] : Add (NumDict α) :=
  ⟨NumDict.binop (fun a b => a + b)⟩

instance [DecidableEq α] : Mul (NumDict α) :=
  ⟨NumDict.binop (fun a b => a * b)⟩

/-- Modelled from the spec: scalar multiplication `c * D` broadcasts
over all values and the default. -/
def smul (c : ℚ) (d : NumDict α) : NumDict α :=
  ⟨d.keys, fun k => c * d.val k, c * d.default⟩

/-- Modelled from the spec: scalar subtraction `D - c` broadcasts over
all values and the default. -/
def subc (d : NumDict α) (c : ℚ) : NumDict α :=
  ⟨d.keys, fun k => d.val k - c, d.default - c⟩

/-- Modelled from the spec: `keep(D, keys)` projects D onto exactly the
given key set, dropping all other explicit keys. -/
def keep [DecidableEq α] (d : NumDict α) (ks : Finset α) : NumDict α :=
  ⟨d.keys ∩ ks, d.val, d.default⟩

/-- Modelled from the spec: `transform_keys(D, func)` applies `func` to
every explicit key; when two distinct input keys map to the same output
key their values are combined by addition. -/
def transform_keys [DecidableEq α] [DecidableEq β] (d : NumDict α) (func : α → β) :
    NumDict β :=
  ⟨d.keys.image func,
   fun b => (d.keys.filter (fun k => func k = b)).sum d.val,
   d.default⟩

/-- Modelled from the spec: `sum_by(D, keyfunc)` groups explicit entries
by a derived key and reduces each group by addition. -/
def sum_by [DecidableEq α] [DecidableEq β] (d : NumDict α) (keyfunc : α → β) :
    NumDict β :=
  ⟨d.keys.image keyfunc,
   fun b => (d.keys.filter (fun k => keyfunc k = b)).sum d.val,
   d.default⟩

/-- Modelled from the spec: the mutable-flavor `update` used to
accumulate entries: every explicit entry of `o` is written into `d`,
overwriting on collision; the default of `d` is kept. -/
def NumDict.update [DecidableEq α] (d o : NumDict α) : NumDict α :=
  ⟨d.keys ∪ o.keys, fun k => if k ∈ o.keys then o.val k else d.val k, d.default⟩

/-- An empty NumDict with default 0. -/
def emptyND (α : Type) : NumDict α :=
  ⟨∅, fun _ => 0, 0⟩

/-- Extensional equality of NumDicts: same explicit key set, same value
at every explicit key, same default. -/
def NumDict.Equiv (A B : NumDict α) : Prop :=
  A.keys = B.keys ∧ (∀ k ∈ A.keys, A.val k = B.val k) ∧ A.default = B.default

instance NumDict.Equiv.decidable [DecidableEq α] (A B : NumDict α) :
    Decidable (NumDict.Equiv A B) :=
  decidable_of_iff
    (A.keys = B.keys ∧ (∀ k ∈ A.keys, A.val k = B.val k) ∧ A.default = B.default)
    Iff.rfl

/-- Modelled from the spec: the exponential-moving-average recursion
step, `s_next = alpha * d + (1 - alpha) * s` elementwise. -/
def emaStep [DecidableEq α] (alpha : ℚ) (s d : NumDict α) : NumDict α :=
  smul alpha d + smul (1 - alpha) s

/-- Tail of the exponential moving average: given the previous smoothed
value `s`, smooths the remaining sequence. -/
def emaAux [DecidableEq α] (alpha : ℚ) (s : NumDict α) :
    List (NumDict α) → List (NumDict α)
  | [] => []
  | d :: ds => emaStep alpha s d :: emaAux alpha (emaStep alpha s d) ds

/-- Modelled from the spec: `exponential_moving_avg(*Ds, alpha)` returns
a sequence of the same length with `s[0] = D[0]` and
`s[t] = alpha * D[t] + (1-alpha) * s[t-1]` elementwise. -/
def exponential_moving_avg [DecidableEq α] (alpha : ℚ) :
    List (NumDict α) → List (NumDict α)
  | [] => []
  | d :: ds => d :: emaAux alpha d ds

end nd

open nd

/-- Modelled from the spec: a Stimulus emitter holds one pending NumDict,
emits it when stepped, and clears it after it is read. -/
structure Stimulus (α : Type) where
  stimulus : NumDict α

/-- A fresh Stimulus with nothing pending. -/
def Stimulus.init (α : Type) : Stimulus α :=
  ⟨emptyND α⟩

/-- Modelled from the spec: externally supply a NumDict to be emitted at
the next step. -/
def Stimulus.input (_ : Stimulus α) (d : NumDict α) : Stimulus α :=
  ⟨d⟩

/-- Modelled from the spec: stepping a Stimulus emits the pending value
and clears it (an empty default-0 NumDict remains pending). -/
def Stimulus.step (s : Stimulus α) : NumDict α × Stimulus α :=
  (s.stimulus, ⟨emptyND α⟩)

/-- Modelled from the spec: a Repeater keeps a one-slot memory of its
source's last output. -/
structure Repeater (α : Type) where
  store : NumDict α

/-- A fresh Repeater; its memory holds an empty default-0 NumDict. -/
def Repeater.init (α : Type) : Repeater α :=
  ⟨emptyND α⟩

/-- Modelled from the spec: stepping a Repeater emits the stored
previous source output and stores the source's current output. -/
def Repeater.step (r : Repeater α) (src : NumDict α) : NumDict α × Repeater α :=
  (r.store, ⟨src⟩)

/-- The Repeater's state after `t` steps over the source output
sequence `src`. -/
def Repeater.runState (src : ℕ → NumDict α) : ℕ → Repeater α
  | 0 => Repeater.init α
  | t + 1 => ((Repeater.runState src t).step (src t)).2

/-- The Repeater's published output at step `t` over the source output
sequence `src`. -/
def Repeater.outputAt (src : ℕ → NumDict α) (t : ℕ) : NumDict α :=
  ((Repeater.runState src t).step (src t)).1

/-- Modelled from the spec: an action interface declares the legal
action keys (`cmds`), the designated default action keys, and the
dimension grouping of keys. -/
structure SimpleInterface (κ δ : Type) where
  cmds : Finset κ
  defaults : Finset κ
  dim : κ → δ

/-- Modelled from the spec: the ActionSelector samples one choice per
action dimension and emits a NumDict over the interface keys with value
1 at each chosen key and 0 elsewhere (default 0).  The sampled outcome
is abstracted as the per-dimension choice function `choice`. -/
def ActionSelector.emit [DecidableEq κ] (I : SimpleInterface κ δ) (choice : δ → κ) :
    NumDict κ :=
  ⟨I.cmds, fun k => if choice (I.dim k) = k then 1 else 0, 0⟩

/-- Data of a reinforcement map: the reinforcement-signal keys and the
`(dimension, lag)` pair each one reinforces. -/
structure RMapData (σ δ : Type) where
  sig : Finset σ
  assign : σ → δ × ℕ

/-- Modelled from the spec: constructing a ReinforcementMap checks that
the signal-to-(dimension, lag) mapping is one-to-one and fails fast
(returns `none`) otherwise. -/
def ReinforcementMap.make [DecidableEq σ] [DecidableEq δ]
    (sig : Finset σ) (assign : σ → δ × ℕ) : Option (RMapData σ δ) :=
  if ∀ a ∈ sig, ∀ b ∈ sig, assign a = assign b → a = b then
    some ⟨sig, assign⟩
  else
    none

/-- The atomic labels appearing as feature tags and values in the
q-learning example: prompts A and B, the respond dimension, the standby
choice, the reinforcement-signal tag, and the reporting label. -/
inductive Label where
  | A
  | B
  | respond
  | standby
  | rRespond
  | r
deriving DecidableEq

/-- A feature key `(tag, value, lag)`; value may be absent, lag defaults
to 0. -/
structure Feature where
  tag : Label
  val : Option Label
  lag : ℕ
deriving DecidableEq

/-- The form `feature(tag)`: a feature key with no value tag and lag 0. -/
def feature (t : Label) : Feature :=
  ⟨t, none, 0⟩

/-- The form `feature(tag, val)`: a feature key with a value tag and lag 0. -/
def featureV (t v : Label) : Feature :=
  ⟨t, some v, 0⟩

/-- The three legal respond-action keys of the q-learning example. -/
def respKeys : Finset Feature :=
  {featureV Label.respond Label.A, featureV Label.respond Label.B,
   featureV Label.respond Label.standby}

/-- The two prompt keys of the q-learning example. -/
def promptKeys : Finset Feature :=
  {feature Label.A, feature Label.B}

namespace ABTask

/-- The source's `actions = nd.keep(actions, keys={...})`: the incoming
action dict restricted to the three respond keys. -/
def keptActions (actions : NumDict Feature) : NumDict Feature :=
  nd.keep actions respKeys

/-- The source's `stimulus = nd.keep(stimulus, keys={...})`: the
incoming stimulus restricted to the two prompt keys. -/
def keptStimulus (stimulus : NumDict Feature) : NumDict Feature :=
  nd.keep stimulus promptKeys

/-- The source's `correct = nd.MutableNumDict({feature("respond",
"standby"): 0})`. -/
def correctBase : NumDict Feature :=
  ⟨{featureV Label.respond Label.standby}, fun _ => 0, 0⟩

/-- The source's `_correct = nd.transform_keys(stimulus, func=lambda s:
feature("respond", s.tag))`. -/
def promptCorrect (stimulus : NumDict Feature) : NumDict Feature :=
  nd.transform_keys (keptStimulus stimulus) (fun s => featureV Label.respond s.tag)

/-- The source's `correct.update(2 * _correct - 1)`. -/
def correctDict (stimulus : NumDict Feature) : NumDict Feature :=
  correctBase.update (nd.subc (nd.smul 2 (promptCorrect stimulus)) 1)

/-- The function `ABTask.reinforcements`, translated from the source: the final
`r = nd.sum_by(correct * actions, keyfunc=lambda a:
feature(("r", "respond")))`. -/
def reinforcements (stimulus actions : NumDict Feature) : NumDict Feature :=
  nd.sum_by (correctDict stimulus * keptActions actions)
    (fun _ => feature Label.rRespond)

end ABTask

/-! Concrete fixtures used by the witness theorems. -/

/-- A concrete NumDict over natural-number keys. -/
def fixD1 : NumDict ℕ :=
  ⟨{0}, fun _ => 2, 5⟩

/-- A second concrete NumDict over natural-number keys. -/
def fixD2 : NumDict ℕ :=
  ⟨{1}, fun _ => 3, 7⟩

/-- A concrete NumDict with default 0. -/
def fixE1 : NumDict ℕ :=
  ⟨{0}, fun _ => 2, 0⟩

/-- A second concrete NumDict with default 0. -/
def fixE2 : NumDict ℕ :=
  ⟨{1}, fun _ => 3, 0⟩

/-- A third concrete NumDict with default 0. -/
def fixE3 : NumDict ℕ :=
  ⟨{0, 2}, fun k => if k = 0 then 1 else 4, 0⟩

/-- A concrete action interface: two keys in one dimension. -/
def fixInterface : SimpleInterface ℕ ℕ :=
  ⟨{0, 1}, {1}, fun _ => 0⟩

/-- A concrete per-dimension choice function. -/
def fixChoice : ℕ → ℕ :=
  fun _ => 0

/-- A non-injective reinforcement assignment: both signal keys 0 and 1
reinforce dimension-lag pair (0, 0). -/
def fixAssignBad : ℕ → ℕ × ℕ :=
  fun _ => (0, 0)

/-- An injective reinforcement assignment. -/
def fixAssignGood : ℕ → ℕ × ℕ :=
  fun a => (a, 0)

/-- The example NumDict of the transform-keys collision test:
`{f("A"): 1, f("B"): 2}`. -/
def fixCollide : NumDict Feature :=
  ⟨{feature Label.A, feature Label.B},
   fun k => if k = feature Label.A then 1 else 2, 0⟩

/-- The expected collapsed result `{"r": 3}` of the collision test. -/
def fixCollapsed : NumDict Label :=
  ⟨{Label.r}, fun _ => 3, 0⟩

/-- A concrete one-hot stimulus for the A prompt. -/
def fixStimA : NumDict Feature :=
  ⟨{feature Label.A, feature Label.B},
   fun k => if k = feature Label.A then 1 else 0, 0⟩

/-- A concrete one-hot action dict choosing respond-B. -/
def fixActB : NumDict Feature :=
  ⟨respKeys, fun k => if k = featureV Label.respond Label.B then 1 else 0, 0⟩

/-! Helper lemmas shared by the claim theorems. -/

namespace nd

variable {α β : Type}

theorem NumDict.add_def [DecidableEq α] (A B : NumDict α) :
    A + B = NumDict.binop (fun a b => a + b) A B :=
  rfl

theorem NumDict.mul_def [DecidableEq α] (A B : NumDict α) :
    A * B = NumDict.binop (fun a b => a * b) A B :=
  rfl

theorem NumDict.get_binop [DecidableEq α] (f : ℚ → ℚ → ℚ) (A B : NumDict α) (k : α) :
    (NumDict.binop f A B).get k = f (A.get k) (B.get k) := by
  by_cases hA : k ∈ A.keys <;> by_cases hB : k ∈ B.keys <;>
    simp [NumDict.get, NumDict.binop, hA, hB]

theorem NumDict.get_smul [DecidableEq α] (c : ℚ) (d : NumDict α) (k : α) :
    (smul c d).get k = c * d.get k := by
  by_cases h : k ∈ d.keys <;> simp [NumDict.get, smul, h]

theorem NumDict.get_of_mem [DecidableEq α] {d : NumDict α} {k : α}
    (h : k ∈ d.keys) : d.get k = d.val k := by
  unfold NumDict.get
  rw [if_pos h]

theorem NumDict.get_of_not_mem [DecidableEq α] {d : NumDict α} {k : α}
    (h : k ∉ d.keys) : d.get k = d.default := by
  unfold NumDict.get
  rw [if_neg h]

theorem NumDict.Equiv.refl (d : NumDict α) : NumDict.Equiv d d :=
  ⟨rfl, fun _ _ => rfl, rfl⟩

theorem NumDict.Equiv.get_eq [DecidableEq α] {A B : NumDict α}
    (h : NumDict.Equiv A B) (k : α) : A.get k = B.get k := by
  obtain ⟨hk, hv, hd⟩ := h
  by_cases hm : k ∈ A.keys
  · rw [NumDict.get, NumDict.get, if_pos hm, if_pos (hk ▸ hm)]
    exact hv k hm
  · rw [NumDict.get, NumDict.get, if_neg hm, if_neg (hk ▸ hm)]
    exact hd

end nd

open nd in
/-- Blending a dict equivalent to `v` with `v` itself yields a dict
equivalent to `v`, for any mixing coefficient. -/
theorem emaStep_equiv {α : Type} [DecidableEq α] (alpha : ℚ) (s v : NumDict α)
    (h : NumDict.Equiv s v) : NumDict.Equiv (emaStep alpha s v) v := by
  obtain ⟨hk, hv, hd⟩ := h
  refine ⟨?_, ?_, ?_⟩
  · show (smul alpha v).keys ∪ (smul (1 - alpha) s).keys = v.keys
    show v.keys ∪ s.keys = v.keys
    rw [hk, Finset.union_self]
  · intro k hmem
    show (smul alpha v).get k + (smul (1 - alpha) s).get k = v.val k
    rw [NumDict.get_smul, NumDict.get_smul, NumDict.Equiv.get_eq ⟨hk, hv, hd⟩ k]
    have hkv : k ∈ v.keys := by
      have : (emaStep alpha s v).keys = v.keys ∪ s.keys := rfl
      rw [this, hk, Finset.union_self] at hmem
      exact hmem
    rw [NumDict.get, if_pos hkv]
    ring
  · show alpha * v.default + (1 - alpha) * s.default = v.default
    rw [hd]
    ring

/-- Length of the exponential-moving-average tail. -/
theorem emaAux_length {α : Type} [DecidableEq α] (alpha : ℚ) (s : NumDict α)
    (ds : List (NumDict α)) : (emaAux alpha s ds).length = ds.length := by
  induction ds generalizing s with
  | nil => rfl
  | cons d ds ih => simp [emaAux, ih]

/-- Recurrence of the exponential-moving-average tail, stated over
optional indexing. -/
theorem emaAux_rec {α : Type} [DecidableEq α] (alpha : ℚ) (ds : List (NumDict α)) :
    ∀ (s : NumDict α) (t : ℕ) (dt st : NumDict α),
      ds[t]? = some dt → (s :: emaAux alpha s ds)[t]? = some st →
      (emaAux alpha s ds)[t]? = some (emaStep alpha st dt) := by
  induction ds with
  | nil =>
    intro s t dt st h1 _
    simp at h1
  | cons d ds ih =>
    intro s t dt st h1 h2
    cases t with
    | zero =>
      simp at h1 h2
      subst h1
      subst h2
      simp [emaAux]
    | succ t =>
      simp only [List.getElem?_cons_succ] at h1 h2
      simp only [emaAux, List.getElem?_cons_succ]
      exact ih (emaStep alpha s d) t dt st h1 h2

/-- Every smoothed value of a constant input sequence stays equivalent
to the constant, given the running value is. -/
theorem emaAux_replicate_equiv {α : Type} [DecidableEq α] (alpha : ℚ)
    (v : NumDict α) :
    ∀ (n t : ℕ) (s w : NumDict α), NumDict.Equiv s v →
      (emaAux alpha s (List.replicate n v))[t]? = some w → NumDict.Equiv w v := by
  intro n
  induction n with
  | zero =>
    intro t s w _ hw
    simp [emaAux] at hw
  | succ n ih =>
    intro t s w hs hw
    rw [List.replicate_succ] at hw
    cases t with
    | zero =>
      simp only [emaAux, List.getElem?_cons_zero, Option.some.injEq] at hw
      rw [← hw]
      exact emaStep_equiv alpha s v hs
    | succ t =>
      simp only [emaAux, List.getElem?_cons_succ] at hw
      exact ih t (emaStep alpha s v) w (emaStep_equiv alpha s v hs) hw

/-! Claim theorems and their witnesses. -/

/-- C1: for NumDicts A (default dA) and B (default dB) and an
elementwise operation `f`, `A op B` has explicit key set the union of
A's and B's explicit keys, value `f (A.get k) (B.get k)` at every such
key `k`, and default `f dA dB`. -/
theorem claim_C1_binop_semantics {α : Type} [DecidableEq α] (f : ℚ → ℚ → ℚ)
    (A B : NumDict α) (k : α) (hk : k ∈ (NumDict.binop f A B).keys) :
    (NumDict.binop f A B).keys = A.keys ∪ B.keys
    ∧ (NumDict.binop f A B).get k = f (A.get k) (B.get k)
    ∧ (NumDict.binop f A B).default = f A.default B.default :=
  ⟨rfl, NumDict.get_binop f A B k, rfl⟩

/-- Witness for C1 at a concrete addition of two concrete dicts. -/
theorem claim_C1_binop_semantics_w :
    (0 ∈ (NumDict.binop (fun a b => a + b) fixD1 fixD2).keys)
    ∧ ((NumDict.binop (fun a b => a + b) fixD1 fixD2).keys = fixD1.keys ∪ fixD2.keys
      ∧ (NumDict.binop (fun a b => a + b) fixD1 fixD2).get 0
          = (fun a b => a + b) (fixD1.get 0) (fixD2.get 0)
      ∧ (NumDict.binop (fun a b => a + b) fixD1 fixD2).default
          = (fun a b => a + b) fixD1.default fixD2.default) :=
  ⟨by decide, claim_C1_binop_semantics (fun a b => a + b) fixD1 fixD2 0 (by decide)⟩

/-- C2: a Repeater's published output at any step `t ≥ 1` equals the
output its source produced at step `t - 1`, and its output at step 0 is
an empty NumDict with default value 0. -/
theorem claim_C2_repeater_lag {α : Type} (src : ℕ → NumDict α) (t : ℕ)
    (ht : 1 ≤ t) :
    Repeater.outputAt src t = src (t - 1)
    ∧ Repeater.outputAt src 0 = emptyND α := by
  obtain ⟨u, rfl⟩ : ∃ u, t = u + 1 := ⟨t - 1, by omega⟩
  exact ⟨rfl, rfl⟩

/-- Witness for C2 at step 1 of a constant source. -/
theorem claim_C2_repeater_lag_w :
    1 ≤ 1
    ∧ (Repeater.outputAt (fun _ => fixD1) 1 = fixD1
      ∧ Repeater.outputAt (fun _ => fixD1) 0 = emptyND ℕ) :=
  ⟨by decide, claim_C2_repeater_lag (fun _ => fixD1) 1 (by decide)⟩

/-- C6: constructing a ReinforcementMap fails (returns `none`) whenever
two distinct signal keys are assigned the same `(dimension, lag)` pair,
and succeeds whenever the assignment is one-to-one on the signal keys. -/
theorem claim_C6_rmap_one_to_one {σ δ : Type} [DecidableEq σ] [DecidableEq δ]
    (sig : Finset σ) (assign : σ → δ × ℕ) :
    (∀ a b, a ∈ sig → b ∈ sig → a ≠ b → assign a = assign b →
      ReinforcementMap.make sig assign = none)
    ∧ ((∀ a ∈ sig, ∀ b ∈ sig, assign a = assign b → a = b) →
      ReinforcementMap.make sig assign = some ⟨sig, assign⟩) := by
  constructor
  · intro a b ha hb hne heq
    have hno : ¬ (∀ a ∈ sig, ∀ b ∈ sig, assign a = assign b → a = b) :=
      fun h => hne (h a ha b hb heq)
    unfold ReinforcementMap.make
    rw [if_neg hno]
  · intro h
    unfold ReinforcementMap.make
    rw [if_pos h]

/-- Witness for C6: a concrete colliding assignment is rejected and a
concrete injective one is accepted. -/
theorem claim_C6_rmap_one_to_one_w :
    ReinforcementMap.make ({0, 1} : Finset ℕ) fixAssignBad = none
    ∧ ReinforcementMap.make ({0, 1} : Finset ℕ) fixAssignGood
        = some ⟨{0, 1}, fixAssignGood⟩ :=
  ⟨(claim_C6_rmap_one_to_one {0, 1} fixAssignBad).1 0 1 (by decide) (by decide)
      (by decide) rfl,
   (claim_C6_rmap_one_to_one {0, 1} fixAssignGood).2 (by decide)⟩

/-- C7: a Stimulus emits the NumDict supplied before the step; with no
supplied value it emits an empty NumDict with default 0; and the
pending value is cleared once read, so the following step emits the
empty NumDict again. -/
theorem claim_C7_stimulus_pending {α : Type} (s : Stimulus α) (d : NumDict α) :
    ((s.input d).step).1 = d
    ∧ ((Stimulus.init α).step).1 = emptyND α
    ∧ ((s.step).2.step).1 = emptyND α
    ∧ (((s.input d).step).2.step).1 = emptyND α
    ∧ (emptyND α).keys = ∅
    ∧ (emptyND α).default = 0 :=
  ⟨rfl, rfl, rfl, rfl, rfl, rfl⟩

/-- C8: `keep` is idempotent, and the kept dict's explicit keys are
exactly the explicit keys of the original that lie in the kept set. -/
theorem claim_C8_keep_idempotent {α : Type} [DecidableEq α] (D : NumDict α)
    (K : Finset α) :
    nd.keep (nd.keep D K) K = nd.keep D K
    ∧ ∀ k, (k ∈ (nd.keep D K).keys ↔ k ∈ D.keys ∧ k ∈ K) := by
  constructor
  · show (⟨(D.keys ∩ K) ∩ K, D.val, D.default⟩ : NumDict α) = ⟨D.keys ∩ K, D.val, D.default⟩
    rw [Finset.inter_assoc, Finset.inter_self]
  · intro k
    exact Finset.mem_inter

/-- C9: NumDict addition and multiplication are associative and
commutative, key-by-key, for dicts with matching defaults. -/
theorem claim_C9_add_mul_assoc_comm {α : Type} [DecidableEq α]
    (A B C : NumDict α) (h1 : A.default = B.default) (h2 : B.default = C.default) :
    NumDict.Equiv ((A + B) + C) (A + (B + C))
    ∧ NumDict.Equiv (A + B) (B + A)
    ∧ NumDict.Equiv ((A * B) * C) (A * (B * C))
    ∧ NumDict.Equiv (A * B) (B * A) := by
  refine ⟨⟨?_, ?_, ?_⟩, ⟨?_, ?_, ?_⟩, ⟨?_, ?_, ?_⟩, ⟨?_, ?_, ?_⟩⟩
  · show (A.keys ∪ B.keys) ∪ C.keys = A.keys ∪ (B.keys ∪ C.keys)
    exact Finset.union_assoc A.keys B.keys C.keys
  · intro k _
    show (A + B).get k + C.get k = A.get k + (B + C).get k
    rw [NumDict.add_def, NumDict.add_def, NumDict.get_binop, NumDict.get_binop]
    ring
  · show (A.default + B.default) + C.default = A.default + (B.default + C.default)
    ring
  · show A.keys ∪ B.keys = B.keys ∪ A.keys
    exact Finset.union_comm A.keys B.keys
  · intro k _
    show A.get k + B.get k = B.get k + A.get k
    ring
  · show A.default + B.default = B.default + A.default
    ring
  · show (A.keys ∪ B.keys) ∪ C.keys = A.keys ∪ (B.keys ∪ C.keys)
    exact Finset.union_assoc A.keys B.keys C.keys
  · intro k _
    show (A * B).get k * C.get k = A.get k * (B * C).get k
    rw [NumDict.mul_def, NumDict.mul_def, NumDict.get_binop, NumDict.get_binop]
    ring
  · show (A.default * B.default) * C.default = A.default * (B.default * C.default)
    ring
  · show A.keys ∪ B.keys = B.keys ∪ A.keys
    exact Finset.union_comm A.keys B.keys
  · intro k _
    show A.get k * B.get k = B.get k * A.get k
    ring
  · show A.default * B.default = B.default * A.default
    ring

/-- C3: `transform_keys` maps every explicit key through `func`; when
two distinct explicit keys collide on the same output key the result's
value there is the sum of their values (a symmetric, order-independent
policy), and the documented 2-key example collapses to `{"r": 3}`. -/
theorem claim_C3_transform_keys_collision {α β : Type} [DecidableEq α]
    [DecidableEq β] (D : NumDict α) (func : α → β) (b : β) (k1 k2 : α)
    (hne : k1 ≠ k2) (hpre : D.keys.filter (fun k => func k = b) = {k1, k2}) :
    (transform_keys D func).keys = D.keys.image func
    ∧ (transform_keys D func).val b = D.val k1 + D.val k2
    ∧ NumDict.Equiv (transform_keys fixCollide (fun _ => Label.r)) fixCollapsed := by
  refine ⟨rfl, ?_, ?_, ?_, rfl⟩
  · show (D.keys.filter (fun k => func k = b)).sum D.val = _
    rw [hpre, Finset.sum_insert (by simp [hne]), Finset.sum_singleton]
  · decide
  · intro k hk
    have hkr : k = Label.r := by
      have h2 : (transform_keys fixCollide (fun _ => Label.r)).keys
          = {Label.r} := by decide
      rw [h2, Finset.mem_singleton] at hk
      exact hk
    subst hkr
    show (fixCollide.keys.filter
        (fun kk => (fun _ => Label.r) kk = Label.r)).sum fixCollide.val
      = fixCollapsed.val Label.r
    rw [show fixCollide.keys.filter (fun kk => (fun _ => Label.r) kk = Label.r)
        = fixCollide.keys from by decide]
    show ({feature Label.A, feature Label.B} : Finset Feature).sum fixCollide.val
      = 3
    rw [Finset.sum_insert (by decide), Finset.sum_singleton]
    show (if feature Label.A = feature Label.A then (1 : ℚ) else 2)
      + (if feature Label.B = feature Label.A then (1 : ℚ) else 2) = 3
    rw [if_pos rfl, if_neg (by decide)]
    norm_num

/-- Witness for C3 at the documented 2-key example itself. -/
theorem claim_C3_transform_keys_collision_w :
    feature Label.A ≠ feature Label.B
    ∧ fixCollide.keys.filter
        (fun k => (fun _ => Label.r) k = Label.r)
        = {feature Label.A, feature Label.B}
    ∧ ((transform_keys fixCollide (fun _ => Label.r)).keys
          = fixCollide.keys.image (fun _ => Label.r)
      ∧ (transform_keys fixCollide (fun _ => Label.r)).val Label.r
          = fixCollide.val (feature Label.A) + fixCollide.val (feature Label.B)
      ∧ NumDict.Equiv (transform_keys fixCollide (fun _ => Label.r)) fixCollapsed) :=
  ⟨by decide, by decide,
   claim_C3_transform_keys_collision fixCollide (fun _ => Label.r) Label.r
     (feature Label.A) (feature Label.B) (by decide) (by decide)⟩

/-- C4: the exponential moving average preserves length, starts at the
first input, obeys `s[t] = alpha * D[t] + (1 - alpha) * s[t-1]`
elementwise, and smooths any constant input sequence to itself. -/
theorem claim_C4_ema_recurrence {α : Type} [DecidableEq α] (alpha : ℚ)
    (Ds : List (NumDict α)) (hne : Ds ≠ []) (h0 : 0 < alpha) (h1 : alpha ≤ 1) :
    (exponential_moving_avg alpha Ds).length = Ds.length
    ∧ (exponential_moving_avg alpha Ds)[0]? = Ds[0]?
    ∧ (∀ t dt st, Ds[t + 1]? = some dt →
        (exponential_moving_avg alpha Ds)[t]? = some st →
        (exponential_moving_avg alpha Ds)[t + 1]?
          = some (smul alpha dt + smul (1 - alpha) st))
    ∧ (∀ (v : NumDict α) (n t : ℕ) (w : NumDict α),
        (exponential_moving_avg alpha (List.replicate n v))[t]? = some w →
        NumDict.Equiv w v) := by
  obtain ⟨d, tl, rfl⟩ : ∃ d tl, Ds = d :: tl := by
    cases Ds with
    | nil => exact absurd rfl hne
    | cons d tl => exact ⟨d, tl, rfl⟩
  refine ⟨?_, by simp [exponential_moving_avg], ?_, ?_⟩
  · simp [exponential_moving_avg, emaAux_length]
  · intro t dt st hdt hst
    simp only [exponential_moving_avg] at hst ⊢
    rw [List.getElem?_cons_succ] at hdt
    rw [List.getElem?_cons_succ]
    exact emaAux_rec alpha tl d t dt st hdt hst
  · intro v n t w hw
    cases n with
    | zero => simp [exponential_moving_avg] at hw
    | succ n =>
      rw [List.replicate_succ] at hw
      simp only [exponential_moving_avg] at hw
      cases t with
      | zero =>
        rw [List.getElem?_cons_zero, Option.some_inj] at hw
        rw [← hw]
        exact NumDict.Equiv.refl v
      | succ t =>
        rw [List.getElem?_cons_succ] at hw
        exact emaAux_replicate_equiv alpha v n t v w (NumDict.Equiv.refl v) hw

/-- Witness for C4 at alpha 1 over a one-element sequence. -/
theorem claim_C4_ema_recurrence_w :
    ([fixD1] ≠ ([] : List (NumDict ℕ)))
    ∧ 0 < (1 : ℚ)
    ∧ (1 : ℚ) ≤ 1
    ∧ ((exponential_moving_avg 1 [fixD1]).length = [fixD1].length
      ∧ (exponential_moving_avg 1 [fixD1])[0]? = [fixD1][0]?
      ∧ (∀ t dt st, [fixD1][t + 1]? = some dt →
          (exponential_moving_avg 1 [fixD1])[t]? = some st →
          (exponential_moving_avg 1 [fixD1])[t + 1]?
            = some (smul 1 dt + smul (1 - 1) st))
      ∧ (∀ (v : NumDict ℕ) (n t : ℕ) (w : NumDict ℕ),
          (exponential_moving_avg 1 (List.replicate n v))[t]? = some w →
          NumDict.Equiv w v)) :=
  ⟨List.cons_ne_nil _ _, by norm_num, by norm_num,
   claim_C4_ema_recurrence 1 [fixD1] (List.cons_ne_nil _ _) (by norm_num)
     (by norm_num)⟩

/-- C5: for every possible sampled outcome, the ActionSelector's output
has exactly one key with value 1 in each action-dimension group, value
0 at every other key of that dimension, explicit keys exactly the
interface's legal action keys, and default 0. -/
theorem claim_C5_selector_one_hot {κ δ : Type} [DecidableEq κ] [DecidableEq δ]
    (I : SimpleInterface κ δ) (choice : δ → κ)
    (hc : ∀ d ∈ I.cmds.image I.dim, choice d ∈ I.cmds ∧ I.dim (choice d) = d)
    (d : δ) (hd : d ∈ I.cmds.image I.dim) :
    (I.cmds.filter
        (fun k => I.dim k = d ∧ (ActionSelector.emit I choice).val k = 1))
      = {choice d}
    ∧ (∀ k ∈ I.cmds, I.dim k = d → k ≠ choice d →
        (ActionSelector.emit I choice).val k = 0)
    ∧ (ActionSelector.emit I choice).keys = I.cmds
    ∧ (ActionSelector.emit I choice).default = 0 := by
  obtain ⟨hmem, hdim⟩ := hc d hd
  refine ⟨?_, ?_, rfl, rfl⟩
  · ext k
    simp only [Finset.mem_filter, Finset.mem_singleton, ActionSelector.emit]
    constructor
    · rintro ⟨_, hkd, hv⟩
      by_cases h : choice (I.dim k) = k
      · rw [hkd] at h
        exact h.symm
      · rw [if_neg h] at hv
        norm_num at hv
    · rintro rfl
      refine ⟨hmem, hdim, ?_⟩
      rw [hdim, if_pos rfl]
  · intro k _ hkd hne
    show (if choice (I.dim k) = k then (1 : ℚ) else 0) = 0
    rw [hkd, if_neg (fun h => hne h.symm)]

/-- Witness for C5 at a concrete two-key, one-dimension interface. -/
theorem claim_C5_selector_one_hot_w :
    (∀ d ∈ fixInterface.cmds.image fixInterface.dim,
      fixChoice d ∈ fixInterface.cmds ∧ fixInterface.dim (fixChoice d) = d)
    ∧ 0 ∈ fixInterface.cmds.image fixInterface.dim
    ∧ ((fixInterface.cmds.filter
          (fun k => fixInterface.dim k = 0
            ∧ (ActionSelector.emit fixInterface fixChoice).val k = 1))
        = {fixChoice 0}
      ∧ (∀ k ∈ fixInterface.cmds, fixInterface.dim k = 0 → k ≠ fixChoice 0 →
          (ActionSelector.emit fixInterface fixChoice).val k = 0)
      ∧ (ActionSelector.emit fixInterface fixChoice).keys = fixInterface.cmds
      ∧ (ActionSelector.emit fixInterface fixChoice).default = 0) :=
  ⟨by decide, by decide,
   claim_C5_selector_one_hot fixInterface fixChoice (by decide) 0 (by decide)⟩

/-- Witness for C9 at three concrete default-0 dicts. -/
theorem claim_C9_add_mul_assoc_comm_w :
    fixE1.default = fixE2.default
    ∧ fixE2.default = fixE3.default
    ∧ (NumDict.Equiv ((fixE1 + fixE2) + fixE3) (fixE1 + (fixE2 + fixE3))
      ∧ NumDict.Equiv (fixE1 + fixE2) (fixE2 + fixE1)
      ∧ NumDict.Equiv ((fixE1 * fixE2) * fixE3) (fixE1 * (fixE2 * fixE3))
      ∧ NumDict.Equiv (fixE1 * fixE2) (fixE2 * fixE1)) :=
  ⟨rfl, rfl, claim_C9_add_mul_assoc_comm fixE1 fixE2 fixE3 rfl rfl⟩

/-- Evaluation of `ABTask.reinforcements` for inputs whose explicit
keys are exactly the prompt keys and the respond keys: the result's
single explicit key is the reinforcement-signal key, and its value is
`(2*sA - 1)*aA + (2*sB - 1)*aB`. -/
theorem ABTask.reinforcements_eval (stimulus actions : NumDict Feature)
    (hsk : stimulus.keys = promptKeys)
    (hak : actions.keys = respKeys) :
    (ABTask.reinforcements stimulus actions).keys = {feature Label.rRespond}
    ∧ (ABTask.reinforcements stimulus actions).val (feature Label.rRespond)
      = (2 * stimulus.val (feature Label.A) - 1)
          * actions.val (featureV Label.respond Label.A)
        + (2 * stimulus.val (feature Label.B) - 1)
          * actions.val (featureV Label.respond Label.B) := by
  have hka : (ABTask.keptActions actions).keys = respKeys := by
    show actions.keys ∩ respKeys = respKeys
    rw [hak, Finset.inter_self]
  have hks : (ABTask.keptStimulus stimulus).keys = promptKeys := by
    show stimulus.keys ∩ promptKeys = promptKeys
    rw [hsk, Finset.inter_self]
  have hpck : (ABTask.promptCorrect stimulus).keys
      = {featureV Label.respond Label.A, featureV Label.respond Label.B} := by
    show (ABTask.keptStimulus stimulus).keys.image
        (fun s => featureV Label.respond s.tag)
      = {featureV Label.respond Label.A, featureV Label.respond Label.B}
    rw [hks]
    decide
  have hpcA : (ABTask.promptCorrect stimulus).val (featureV Label.respond Label.A)
      = stimulus.val (feature Label.A) := by
    show ((ABTask.keptStimulus stimulus).keys.filter
        (fun k => (fun s => featureV Label.respond s.tag) k
          = featureV Label.respond Label.A)).sum (ABTask.keptStimulus stimulus).val
      = stimulus.val (feature Label.A)
    rw [hks]
    rw [show promptKeys.filter
        (fun k => (fun s => featureV Label.respond s.tag) k
          = featureV Label.respond Label.A)
        = {feature Label.A} from by decide]
    rw [Finset.sum_singleton]
    rfl
  have hpcB : (ABTask.promptCorrect stimulus).val (featureV Label.respond Label.B)
      = stimulus.val (feature Label.B) := by
    show ((ABTask.keptStimulus stimulus).keys.filter
        (fun k => (fun s => featureV Label.respond s.tag) k
          = featureV Label.respond Label.B)).sum (ABTask.keptStimulus stimulus).val
      = stimulus.val (feature Label.B)
    rw [hks]
    rw [show promptKeys.filter
        (fun k => (fun s => featureV Label.respond s.tag) k
          = featureV Label.respond Label.B)
        = {feature Label.B} from by decide]
    rw [Finset.sum_singleton]
    rfl
  have hcdk : (ABTask.correctDict stimulus).keys = respKeys := by
    show ({featureV Label.respond Label.standby} : Finset Feature)
        ∪ (ABTask.promptCorrect stimulus).keys = respKeys
    rw [hpck]
    decide
  have hcdA : (ABTask.correctDict stimulus).val (featureV Label.respond Label.A)
      = 2 * stimulus.val (feature Label.A) - 1 := by
    have hm : featureV Label.respond Label.A
        ∈ (nd.subc (nd.smul 2 (ABTask.promptCorrect stimulus)) 1).keys := by
      show featureV Label.respond Label.A ∈ (ABTask.promptCorrect stimulus).keys
      rw [hpck]
      decide
    show (if featureV Label.respond Label.A
          ∈ (nd.subc (nd.smul 2 (ABTask.promptCorrect stimulus)) 1).keys
        then (nd.subc (nd.smul 2 (ABTask.promptCorrect stimulus)) 1).val
          (featureV Label.respond Label.A)
        else ABTask.correctBase.val (featureV Label.respond Label.A))
      = 2 * stimulus.val (feature Label.A) - 1
    rw [if_pos hm]
    show 2 * (ABTask.promptCorrect stimulus).val (featureV Label.respond Label.A)
        - 1
      = 2 * stimulus.val (feature Label.A) - 1
    rw [hpcA]
  have hcdB : (ABTask.correctDict stimulus).val (featureV Label.respond Label.B)
      = 2 * stimulus.val (feature Label.B) - 1 := by
    have hm : featureV Label.respond Label.B
        ∈ (nd.subc (nd.smul 2 (ABTask.promptCorrect stimulus)) 1).keys := by
      show featureV Label.respond Label.B ∈ (ABTask.promptCorrect stimulus).keys
      rw [hpck]
      decide
    show (if featureV Label.respond Label.B
          ∈ (nd.subc (nd.smul 2 (ABTask.promptCorrect stimulus)) 1).keys
        then (nd.subc (nd.smul 2 (ABTask.promptCorrect stimulus)) 1).val
          (featureV Label.respond Label.B)
        else ABTask.correctBase.val (featureV Label.respond Label.B))
      = 2 * stimulus.val (feature Label.B) - 1
    rw [if_pos hm]
    show 2 * (ABTask.promptCorrect stimulus).val (featureV Label.respond Label.B)
        - 1
      = 2 * stimulus.val (feature Label.B) - 1
    rw [hpcB]
  have hcdS : (ABTask.correctDict stimulus).val
      (featureV Label.respond Label.standby) = 0 := by
    have hm : featureV Label.respond Label.standby
        ∉ (nd.subc (nd.smul 2 (ABTask.promptCorrect stimulus)) 1).keys := by
      show featureV Label.respond Label.standby
        ∉ (ABTask.promptCorrect stimulus).keys
      rw [hpck]
      decide
    show (if featureV Label.respond Label.standby
          ∈ (nd.subc (nd.smul 2 (ABTask.promptCorrect stimulus)) 1).keys
        then (nd.subc (nd.smul 2 (ABTask.promptCorrect stimulus)) 1).val
          (featureV Label.respond Label.standby)
        else ABTask.correctBase.val (featureV Label.respond Label.standby))
      = 0
    rw [if_neg hm]
    rfl
  have hgcd : ∀ k, k ∈ respKeys →
      (ABTask.correctDict stimulus).get k = (ABTask.correctDict stimulus).val k :=
    fun k hk => NumDict.get_of_mem (by rw [hcdk]; exact hk)
  have hgka : ∀ k, k ∈ respKeys →
      (ABTask.keptActions actions).get k = actions.val k := by
    intro k hk
    rw [NumDict.get_of_mem (show k ∈ (ABTask.keptActions actions).keys by
      rw [hka]; exact hk)]
    rfl
  have hpk : (ABTask.correctDict stimulus * ABTask.keptActions actions).keys
      = respKeys := by
    show (ABTask.correctDict stimulus).keys ∪ (ABTask.keptActions actions).keys
      = respKeys
    rw [hcdk, hka, Finset.union_self]
  constructor
  · show (ABTask.correctDict stimulus * ABTask.keptActions actions).keys.image
        (fun _ => feature Label.rRespond)
      = {feature Label.rRespond}
    rw [hpk]
    decide
  · show ((ABTask.correctDict stimulus * ABTask.keptActions actions).keys.filter
        (fun k => (fun _ => feature Label.rRespond) k
          = feature Label.rRespond)).sum
        (ABTask.correctDict stimulus * ABTask.keptActions actions).val
      = (2 * stimulus.val (feature Label.A) - 1)
          * actions.val (featureV Label.respond Label.A)
        + (2 * stimulus.val (feature Label.B) - 1)
          * actions.val (featureV Label.respond Label.B)
    rw [hpk]
    rw [show respKeys.filter
        (fun k => (fun _ => feature Label.rRespond) k = feature Label.rRespond)
        = respKeys from by decide]
    show (({featureV Label.respond Label.A, featureV Label.respond Label.B,
        featureV Label.respond Label.standby} : Finset Feature)).sum
        (ABTask.correctDict stimulus * ABTask.keptActions actions).val
      = (2 * stimulus.val (feature Label.A) - 1)
          * actions.val (featureV Label.respond Label.A)
        + (2 * stimulus.val (feature Label.B) - 1)
          * actions.val (featureV Label.respond Label.B)
    rw [Finset.sum_insert (by decide), Finset.sum_insert (by decide),
      Finset.sum_singleton]
    have hv : ∀ k, (ABTask.correctDict stimulus * ABTask.keptActions actions).val k
        = (ABTask.correctDict stimulus).get k * (ABTask.keptActions actions).get k :=
      fun k => rfl
    rw [hv, hv, hv]
    rw [hgcd (featureV Label.respond Label.A) (by decide),
      hgcd (featureV Label.respond Label.B) (by decide),
      hgcd (featureV Label.respond Label.standby) (by decide),
      hgka (featureV Label.respond Label.A) (by decide),
      hgka (featureV Label.respond Label.B) (by decide),
      hgka (featureV Label.respond Label.standby) (by decide)]
    rw [hcdA, hcdB, hcdS]
    ring

/-- C10: for a one-hot stimulus over the two prompts and a one-hot
action over the three respond keys, `ABTask.reinforcements` has the
single explicit key `feature(("r", "respond"))`, whose value is 1 when
the chosen respond key matches the prompt valued 1, -1 when it matches
the prompt valued 0, and 0 when standby is chosen. -/
theorem claim_C10_abtask_reward (stimulus actions : NumDict Feature)
    (hsk : stimulus.keys = promptKeys)
    (hsd : stimulus.default = 0)
    (hs1 : (stimulus.val (feature Label.A) = 1
          ∧ stimulus.val (feature Label.B) = 0)
        ∨ (stimulus.val (feature Label.A) = 0
          ∧ stimulus.val (feature Label.B) = 1))
    (hak : actions.keys = respKeys)
    (had : actions.default = 0)
    (ha1 : (actions.val (featureV Label.respond Label.A) = 1
          ∧ actions.val (featureV Label.respond Label.B) = 0
          ∧ actions.val (featureV Label.respond Label.standby) = 0)
        ∨ (actions.val (featureV Label.respond Label.A) = 0
          ∧ actions.val (featureV Label.respond Label.B) = 1
          ∧ actions.val (featureV Label.respond Label.standby) = 0)
        ∨ (actions.val (featureV Label.respond Label.A) = 0
          ∧ actions.val (featureV Label.respond Label.B) = 0
          ∧ actions.val (featureV Label.respond Label.standby) = 1)) :
    (ABTask.reinforcements stimulus actions).keys = {feature Label.rRespond}
    ∧ (actions.val (featureV Label.respond Label.standby) = 1 →
        (ABTask.reinforcements stimulus actions).val (feature Label.rRespond) = 0)
    ∧ (actions.val (featureV Label.respond Label.A) = 1 →
        stimulus.val (feature Label.A) = 1 →
        (ABTask.reinforcements stimulus actions).val (feature Label.rRespond) = 1)
    ∧ (actions.val (featureV Label.respond Label.A) = 1 →
        stimulus.val (feature Label.A) = 0 →
        (ABTask.reinforcements stimulus actions).val (feature Label.rRespond) = -1)
    ∧ (actions.val (featureV Label.respond Label.B) = 1 →
        stimulus.val (feature Label.B) = 1 →
        (ABTask.reinforcements stimulus actions).val (feature Label.rRespond) = 1)
    ∧ (actions.val (featureV Label.respond Label.B) = 1 →
        stimulus.val (feature Label.B) = 0 →
        (ABTask.reinforcements stimulus actions).val (feature Label.rRespond)
          = -1) := by
  obtain ⟨hkeys, hval⟩ := ABTask.reinforcements_eval stimulus actions hsk hak
  refine ⟨hkeys, ?_, ?_, ?_, ?_, ?_⟩
  · intro h1
    rcases ha1 with ⟨hA, hB, hS⟩ | ⟨hA, hB, hS⟩ | ⟨hA, hB, hS⟩
    · rw [hS] at h1
      exact absurd h1 (by norm_num)
    · rw [hS] at h1
      exact absurd h1 (by norm_num)
    · rw [hval, hA, hB]
      ring
  · intro h1 h2
    rcases ha1 with ⟨hA, hB, hS⟩ | ⟨hA, hB, hS⟩ | ⟨hA, hB, hS⟩
    · rw [hval, h1, hB, h2]
      norm_num
    · rw [hA] at h1
      exact absurd h1 (by norm_num)
    · rw [hA] at h1
      exact absurd h1 (by norm_num)
  · intro h1 h2
    rcases ha1 with ⟨hA, hB, hS⟩ | ⟨hA, hB, hS⟩ | ⟨hA, hB, hS⟩
    · rw [hval, h1, hB, h2]
      norm_num
    · rw [hA] at h1
      exact absurd h1 (by norm_num)
    · rw [hA] at h1
      exact absurd h1 (by norm_num)
  · intro h1 h2
    rcases ha1 with ⟨hA, hB, hS⟩ | ⟨hA, hB, hS⟩ | ⟨hA, hB, hS⟩
    · rw [hB] at h1
      exact absurd h1 (by norm_num)
    · rw [hval, h1, hA, h2]
      norm_num
    · rw [hB] at h1
      exact absurd h1 (by norm_num)
  · intro h1 h2
    rcases ha1 with ⟨hA, hB, hS⟩ | ⟨hA, hB, hS⟩ | ⟨hA, hB, hS⟩
    · rw [hB] at h1
      exact absurd h1 (by norm_num)
    · rw [hval, h1, hA, h2]
      norm_num
    · rw [hB] at h1
      exact absurd h1 (by norm_num)

/-- Witness for C10: prompt A with response B yields reinforcement -1. -/
theorem claim_C10_abtask_reward_w :
    fixStimA.keys = promptKeys
    ∧ fixStimA.default = 0
    ∧ fixStimA.val (feature Label.A) = 1
    ∧ fixStimA.val (feature Label.B) = 0
    ∧ fixActB.keys = respKeys
    ∧ fixActB.default = 0
    ∧ fixActB.val (featureV Label.respond Label.B) = 1
    ∧ (ABTask.reinforcements fixStimA fixActB).keys = {feature Label.rRespond}
    ∧ (ABTask.reinforcements fixStimA fixActB).val (feature Label.rRespond)
        = -1 :=
  ⟨by decide, rfl, by decide, by decide, by decide, rfl, by decide,
   (claim_C10_abtask_reward fixStimA fixActB (by decide) rfl
      (Or.inl ⟨by decide, by decide⟩) (by decide) rfl
      (Or.inr (Or.inl ⟨by decide, by decide, by decide⟩))).1,
   (claim_C10_abtask_reward fixStimA fixActB (by decide) rfl
      (Or.inl ⟨by decide, by decide⟩) (by decide) rfl
      (Or.inr (Or.inl ⟨by decide, by decide, by decide⟩))).2.2.2.2.2
     (by decide) (by decide)⟩
